import Mathlib

/-!
Verification of the Company legal-document ingestion and analysis pipeline.

This file shallowly embeds the parts of the repository that the checked
properties are about:

* `app/services/parser.py` — `DocumentParser._normalize_text` and the
  content hashing in `extract_text_from_pdf` (SHA-256 over the UTF-8 bytes
  of the normalized text);
* `app/scrapers/base_scraper.py` — `BaseLegalScraper._rate_limit` and
  `fetch_with_retry` (timed model: the clock advances exactly by the sleeps
  the code performs);
* `app/scrapers/document_processor.py` — `DocumentProcessor`'s batch loop
  and the per-document pipeline, including its raw-byte dedup hash;
* `app/services/ingestion_service.py` — the aggregate outcome counting;
* `app/agents/agent_orchestrator.py` — workflow selection, the sequential
  stage loop with per-stage error isolation, and `_consolidate_insights`;
* `app/services/quality_assurance.py` — the overall-score computation and
  the quality-threshold validation.

Python strings are modelled as `List Char` (a Python `str` is a sequence of
code points); Python floats appearing in the scoring policy are modelled as
exact rationals; dictionaries are modelled as structures whose fields are
exactly the keys the embedded code probes, with `Option` marking optional
keys.
-/

namespace Company

/-! ## Python string primitives used by `DocumentParser._normalize_text` -/

/-- Whitespace characters removed by Python `str.strip()` (the ASCII ones;
the code never feeds other Unicode whitespace into `strip`). -/
def isPySpace (c : Char) : Bool :=
  c = ' ' || c = '\t' || c = '\n' || c = '\r' || c = '\x0b' || c = '\x0c'

/-- Python `str.strip()`: drop leading and trailing whitespace. -/
def pyStrip (l : List Char) : List Char :=
  ((l.dropWhile isPySpace).reverse.dropWhile isPySpace).reverse

/-- Python `text.split(sep)` for a one-character separator: always returns a
nonempty list of pieces; `"".split(sep) == [""]`. -/
def pySplit (sep : Char) : List Char → List (List Char)
  | [] => [[]]
  | c :: cs =>
    match pySplit sep cs with
    | [] => [[]]
    | l :: ls => if c = sep then [] :: l :: ls else (c :: l) :: ls

/-- Python `"\n".join(lines)`. -/
def joinNL : List (List Char) → List Char
  | [] => []
  | [l] => l
  | l :: ls => l ++ '\n' :: joinNL ls

/-- `DocumentParser._normalize_text` (`app/services/parser.py` lines 42-46):
`lines = [line.strip() for line in text.split('\n') if line.strip()]`
followed by `'\n'.join(lines)`. -/
def normalizeText (text : List Char) : List Char :=
  joinNL (((pySplit '\n' text).map pyStrip).filter (fun l => !l.isEmpty))

/-! ## UTF-8 and SHA-256, for `hashlib.sha256(normalized_text.encode())` -/

/-- UTF-8 encoding of one code point (Python `str.encode()` is UTF-8). -/
def utf8Char (c : Char) : List Nat :=
  let n := c.toNat
  if n < 0x80 then [n]
  else if n < 0x800 then
    [0xC0 ||| (n >>> 6), 0x80 ||| (n &&& 0x3F)]
  else if n < 0x10000 then
    [0xE0 ||| (n >>> 12), 0x80 ||| ((n >>> 6) &&& 0x3F), 0x80 ||| (n &&& 0x3F)]
  else
    [0xF0 ||| (n >>> 18), 0x80 ||| ((n >>> 12) &&& 0x3F),
     0x80 ||| ((n >>> 6) &&& 0x3F), 0x80 ||| (n &&& 0x3F)]

/-- UTF-8 encoding of a string (list of bytes as naturals below 256). -/
def utf8Encode (s : List Char) : List Nat :=
  s.foldr (fun c acc => utf8Char c ++ acc) []

/-- Right rotation of a 32-bit word held in a `Nat`. -/
def rotr32 (n x : Nat) : Nat :=
  ((x >>> n) ||| (x <<< (32 - n))) % 2 ^ 32

/-- SHA-256 round constants. -/
def sha256K : List Nat :=
  [1116352408, 1899447441, 3049323471, 3921009573, 961987163,
   1508970993, 2453635748, 2870763221, 3624381080, 310598401,
   607225278, 1426881987, 1925078388, 2162078206, 2614888103,
   3248222580, 3835390401, 4022224774, 264347078, 604807628,
   770255983, 1249150122, 1555081692, 1996064986, 2554220882,
   2821834349, 2952996808, 3210313671, 3336571891, 3584528711,
   113926993, 338241895, 666307205, 773529912, 1294757372,
   1396182291, 1695183700, 1986661051, 2177026350, 2456956037,
   2730485921, 2820302411, 3259730800, 3345764771, 3516065817,
   3600352804, 4094571909, 275423344, 430227734, 506948616,
   659060556, 883997877, 958139571, 1322822218, 1537002063,
   1747873779, 1955562222, 2024104815, 2227730452, 2361852424,
   2428436474, 2756734187, 3204031479, 3329325298]

/-- SHA-256 initial hash state. -/
def sha256H0 : List Nat :=
  [1779033703, 3144134277, 1013904242, 2773480762,
   1359893119, 2600822924, 528734635, 1541459225]

/-- SHA-256 padding: append `0x80`, zero bytes to 56 mod 64, and the bit
length as eight big-endian bytes. -/
def sha256Pad (msg : List Nat) : List Nat :=
  let bitLen := msg.length * 8
  let zeros := (119 - msg.length % 64) % 64
  msg ++ [0x80] ++ List.replicate zeros 0 ++
    ((List.range 8).map (fun i => (bitLen >>> ((7 - i) * 8)) % 256))

/-- Group a byte list into big-endian 32-bit words. -/
def bytesToWords : List Nat → List Nat
  | b0 :: b1 :: b2 :: b3 :: rest =>
    (b0 <<< 24 ||| b1 <<< 16 ||| b2 <<< 8 ||| b3) :: bytesToWords rest
  | _ => []

/-- Split a word list into 16-word blocks (the padded input is always a
whole number of blocks). -/
def toBlocks : List Nat → List (List Nat)
  | w0 :: w1 :: w2 :: w3 :: w4 :: w5 :: w6 :: w7 ::
    w8 :: w9 :: w10 :: w11 :: w12 :: w13 :: w14 :: w15 :: rest =>
    [w0, w1, w2, w3, w4, w5, w6, w7, w8, w9, w10, w11, w12, w13, w14, w15] ::
      toBlocks rest
  | _ => []

/-- SHA-256 message schedule: extend a 16-word block to 64 words. -/
def sha256Schedule (block : List Nat) : List Nat :=
  (List.range 48).foldl
    (fun w _ =>
      let n := w.length
      let s0 :=
        (rotr32 7 (w.getD (n - 15) 0)) ^^^ (rotr32 18 (w.getD (n - 15) 0)) ^^^
          ((w.getD (n - 15) 0) >>> 3)
      let s1 :=
        (rotr32 17 (w.getD (n - 2) 0)) ^^^ (rotr32 19 (w.getD (n - 2) 0)) ^^^
          ((w.getD (n - 2) 0) >>> 10)
      w ++ [(s1 + w.getD (n - 7) 0 + s0 + w.getD (n - 16) 0) % 2 ^ 32])
    block

/-- One SHA-256 compression round. -/
def sha256Round (st : List Nat) (kw : Nat × Nat) : List Nat :=
  match st with
  | [a, b, c, d, e, f, g, h] =>
    let S1 := (rotr32 6 e) ^^^ (rotr32 11 e) ^^^ (rotr32 25 e)
    let ch := (e &&& f) ^^^ ((e ^^^ 0xffffffff) &&& g)
    let t1 := (h + S1 + ch + kw.1 + kw.2) % 2 ^ 32
    let S0 := (rotr32 2 a) ^^^ (rotr32 13 a) ^^^ (rotr32 22 a)
    let mj := (a &&& b) ^^^ (a &&& c) ^^^ (b &&& c)
    let t2 := (S0 + mj) % 2 ^ 32
    [(t1 + t2) % 2 ^ 32, a, b, c, (d + t1) % 2 ^ 32, e, f, g]
  | st => st

/-- SHA-256 compression of one block into the running hash state. -/
def sha256Compress (h : List Nat) (block : List Nat) : List Nat :=
  let w := sha256Schedule block
  let st := (sha256K.zip w |>.map (fun p => (p.1, p.2))).foldl
    (fun st p => sha256Round st (p.1, p.2)) h
  (h.zip st).map (fun p => (p.1 + p.2) % 2 ^ 32)

/-- SHA-256 digest of a byte list, as 32 bytes. -/
def sha256Bytes (msg : List Nat) : List Nat :=
  let hs := (toBlocks (bytesToWords (sha256Pad msg))).foldl sha256Compress sha256H0
  hs.foldr (fun w acc =>
    (w >>> 24) % 256 :: (w >>> 16) % 256 :: (w >>> 8) % 256 :: w % 256 :: acc) []

/-- Lowercase hex digit. -/
def hexDigit (n : Nat) : Char :=
  if n < 10 then Char.ofNat (48 + n) else Char.ofNat (87 + n)

/-- Python `hashlib.sha256(bytes).hexdigest()`, as a list of hex characters. -/
def sha256Hex (msg : List Nat) : List Char :=
  (sha256Bytes msg).foldr (fun b acc => hexDigit (b / 16) :: hexDigit (b % 16) :: acc) []

/-- Content hash of `DocumentParser.extract_text_from_pdf`
(`app/services/parser.py` line 34): SHA-256 hex digest of the UTF-8 bytes of
the normalized text. -/
def parserContentHash (text : List Char) : List Char :=
  sha256Hex (utf8Encode (normalizeText text))

/-- `DocumentParser.extract_text_from_pdf` (`app/services/parser.py` lines
13-40): the pdfminer/pypdf extraction is an external collaborator, passed in
as `extract` (it re-raises on failure, hence `Except`); the function then
normalizes the text and hashes the UTF-8 bytes of the normalized text,
returning `(normalized_text, content_hash)`. -/
def extractTextFromPdf (extract : List Nat → Except String (List Char))
    (pdfContent : List Nat) : Except String (List Char × List Char) :=
  match extract pdfContent with
  | .error e => .error e
  | .ok text => .ok (normalizeText text, parserContentHash text)

/-! ## Timed model of `BaseLegalScraper` (`app/scrapers/base_scraper.py`)

The scraper instance state is `last_request_time` and `failed_urls`; we add
an explicit clock. Time is integer-valued and advances exactly by the sleeps
the code performs (`asyncio.sleep`); the requests themselves are modelled as
instantaneous, which is the relevant regime for lower-bound spacing
properties. Each attempt's response is supplied by an oracle
`resp : Nat → Resp` mapping the attempt number to what `session.get`
produced. -/

/-- Scraper instance state: the model clock, `self.last_request_time`, and
`self.failed_urls`. -/
structure ScraperState where
  clock : Int
  lastRequestTime : Int
  failedUrls : List String
deriving DecidableEq, Repr

/-- `BaseLegalScraper._rate_limit` (lines 91-100): sleep until `rate_limit`
has elapsed since `last_request_time`, then set `last_request_time` to the
current time. -/
def rateLimit (rl : Int) (s : ScraperState) : ScraperState :=
  let timeSinceLast := s.clock - s.lastRequestTime
  let s1 := if timeSinceLast < rl then { s with clock := s.clock + (rl - timeSinceLast) } else s
  { s1 with lastRequestTime := s1.clock }

/-- The outcome of one `session.get` attempt: a 200 response with a
content type and body, a non-200 status (with the `Retry-After` header if
present), a timeout, or another raised exception. -/
inductive Resp where
  | ok (contentType : String) (content : List Nat)
  | status (code : Nat) (retryAfter : Option Nat)
  | timeout
  | exc
deriving DecidableEq, Repr

/-- The retry loop of `fetch_with_retry` (lines 116-144), with `fuel`
remaining iterations of `for attempt in range(max_retries)` (so the current
attempt number is `maxRetries - fuel`). Returns the fetch result, the final
state, and the list of request start times in order. On a 200 the content is
returned; 403/404 mark the URL failed and return `None`; 429 sleeps the
`Retry-After` value (default 60); a timeout or other exception sleeps
`2 ** attempt`; any other status just logs and retries with no sleep. When
the loop ends the URL is marked failed and `None` is returned. -/
def fetchGo (url : String) (resp : Nat → Resp) (maxRetries : Nat) :
    Nat → ScraperState → Option (String × List Nat) × ScraperState × List Int
  | 0, s => (none, { s with failedUrls := url :: s.failedUrls }, [])
  | fuel + 1, s =>
    let attempt := maxRetries - (fuel + 1)
    let start := s.clock
    match resp attempt with
    | .ok ct content => (some (ct, content), s, [start])
    | .status code retryAfter =>
      if code == 429 then
        let r := fetchGo url resp maxRetries fuel
          { s with clock := s.clock + (retryAfter.getD 60 : Nat) }
        (r.1, r.2.1, start :: r.2.2)
      else if code == 403 || code == 404 then
        (none, { s with failedUrls := url :: s.failedUrls }, [start])
      else
        let r := fetchGo url resp maxRetries fuel s
        (r.1, r.2.1, start :: r.2.2)
    | .timeout =>
      let r := fetchGo url resp maxRetries fuel
        { s with clock := s.clock + 2 ^ attempt }
      (r.1, r.2.1, start :: r.2.2)
    | .exc =>
      let r := fetchGo url resp maxRetries fuel
        { s with clock := s.clock + 2 ^ attempt }
      (r.1, r.2.1, start :: r.2.2)

/-- `BaseLegalScraper.fetch_with_retry` (lines 102-144): short-circuit on the
negative cache, check robots.txt, apply the rate limit once, then run the
retry loop. `robotsAllow` is the result of `can_fetch_url`. -/
def fetchWithRetry (rl : Int) (robotsAllow : Bool) (url : String)
    (resp : Nat → Resp) (maxRetries : Nat) (s : ScraperState) :
    Option (String × List Nat) × ScraperState × List Int :=
  if s.failedUrls.contains url then (none, s, [])
  else if !robotsAllow then (none, s, [])
  else fetchGo url resp maxRetries maxRetries (rateLimit rl s)

/-- A response is transient for the retry loop exactly when the loop
continues after it: a timeout, another exception, a 429, or any status other
than 200/403/404. -/
def transientResp : Resp → Bool
  | .ok _ _ => false
  | .status code _ => !(code == 403 || code == 404)
  | .timeout => true
  | .exc => true

/-- The sleep `fetch_with_retry` performs after a failed attempt number
`attempt` answered by `r`: `2 ** attempt` for a timeout or other exception,
the `Retry-After` value (default 60) for a 429, and none for other
statuses. -/
def delayAfter (r : Resp) (attempt : Nat) : Int :=
  match r with
  | .timeout => 2 ^ attempt
  | .exc => 2 ^ attempt
  | .status code retryAfter => if code == 429 then (retryAfter.getD 60 : Nat) else 0
  | .ok _ _ => 0

/-- Request start times of an all-transient run of the retry loop: attempt
number `a` starts at `t`, and each later attempt starts after the sleep for
the previous one. -/
def attemptStarts (resp : Nat → Resp) : Nat → Nat → Int → List Int
  | _, 0, _ => []
  | a, fuel + 1, t => t :: attemptStarts resp (a + 1) fuel (t + delayAfter (resp a) a)

/-! ## `AgentOrchestrator` (`app/agents/agent_orchestrator.py`)

Agent payloads are dictionaries produced by the (out-of-scope) agent
implementations; we model them as a structure whose fields are exactly the
keys the orchestrator and the QA engine probe, with `Option` marking
presence. A stage invocation either returns a payload or raises
(`Except.error`). -/

/-- Value of a `compliance_implications` entry: the consolidator only keeps
entries whose value `isinstance(value, list)`. List elements are the
hashable finding items, modelled as strings. -/
inductive CompVal where
  | list (items : List String)
  | other
deriving DecidableEq, Repr

/-- Value of a `practical_implications` entry: the consolidator only keeps
entries whose value `isinstance(value, str)`. -/
inductive PracVal where
  | str (s : String)
  | other
deriving DecidableEq, Repr

/-- Value of a takeaway field in `_generate_final_summary`: a list is
extended item by item, a string is appended whole, anything else ignored. -/
inductive TkVal where
  | list (items : List String)
  | str (s : String)
  | other
deriving DecidableEq, Repr

/-- An agent result dictionary, with the keys the orchestrator probes. -/
structure AgentPayload where
  legalIssues : Option (List String) := none
  complianceImplications : Option (List (String × CompVal)) := none
  practicalImplications : Option (List (String × PracVal)) := none
  confidenceScore : Option ℚ := none
  caseSummary : Option String := none
  executiveSummary : Option String := none
  keyTakeaways : Option TkVal := none
  csActionItems : Option TkVal := none
  keyPrinciples : Option TkVal := none
  practicalGuidance : Option TkVal := none
  recommendations : Option TkVal := none
deriving DecidableEq, Repr

/-- An entry of `analysis_results["agent_analyses"]`: the agent's payload,
or the `{"error": f"Analysis failed: {e}"}` dictionary recorded when the
agent raised (detected downstream by the `"error" in analysis` probes). -/
inductive StageOutcome where
  | ok (payload : AgentPayload)
  | error (msg : String)
deriving DecidableEq, Repr

/-- What a stage invocation receives: the document text and user query, the
caller-supplied context entries (opaque to the orchestrator, modelled as
string pairs), plus the orchestrator-added `previous_analyses` and
`workflow_stage` keys. -/
structure StageInput where
  documentText : String
  userQuery : Option String
  baseContext : List (String × String)
  previousAnalyses : List (String × AgentPayload)
  workflowStage : String

/-- `self.analysis_workflows` (lines 24-29). -/
def analysisWorkflows : List (String × List String) :=
  [("comprehensive", ["legal_analyst", "cs_expert", "quality_reviewer"]),
   ("cs_focused", ["cs_expert", "legal_analyst", "quality_reviewer"]),
   ("legal_focused", ["legal_analyst", "quality_reviewer"]),
   ("quick_review", ["cs_expert", "quality_reviewer"])]

/-- The agent-execution loop of `analyze_document` (lines 70-101): run the
named agents in order; a successful result is recorded in `agent_analyses`
and added to `previous_results`; a raised exception is recorded as an error
entry and `previous_results` is left unchanged; names not present in
`agent_instances` are skipped. Returns `(agent_analyses, previous_results)`
in encounter order. -/
def runAgents (instances : List (String × (StageInput → Except String AgentPayload)))
    (documentText : String) (userQuery : Option String)
    (baseContext : List (String × String)) :
    List String → List (String × AgentPayload) →
      List (String × StageOutcome) × List (String × AgentPayload)
  | [], previous => ([], previous)
  | name :: rest, previous =>
    match instances.lookup name with
    | none => runAgents instances documentText userQuery baseContext rest previous
    | some agent =>
      let inp : StageInput :=
        { documentText := documentText, userQuery := userQuery,
          baseContext := baseContext, previousAnalyses := previous,
          workflowStage := name }
      match agent inp with
      | .ok payload =>
        let r := runAgents instances documentText userQuery baseContext rest
          (previous ++ [(name, payload)])
        ((name, .ok payload) :: r.1, r.2)
      | .error e =>
        let r := runAgents instances documentText userQuery baseContext rest previous
        ((name, .error ("Analysis failed: " ++ e)) :: r.1, r.2)

/-- One consolidated finding of `practical_implications`. -/
structure PracItem where
  category : String
  implication : String
  sourceAgent : String
deriving DecidableEq, Repr

/-- The `consolidated` dictionary of `_consolidate_insights`. -/
structure ConsolidatedInsights where
  keyLegalIssues : List String
  complianceRequirements : List String
  practicalImplications : List PracItem
  confidenceMetrics : List (String × ℚ)
deriving DecidableEq, Repr

/-- Python `dict.fromkeys` / set-admission order: keep the first occurrence
of each element, drop later duplicates. -/
def dedupFirst (seen : List String) : List String → List String
  | [] => []
  | x :: xs =>
    if seen.contains x then dedupFirst seen xs
    else x :: dedupFirst (x :: seen) xs

/-- Insert into a list kept sorted by ascending `hash`, after any equal-hash
elements (stable). -/
def insertByHash (hash : String → Nat) (x : String) : List String → List String
  | [] => [x]
  | y :: ys => if hash x ≤ hash y then x :: y :: ys else y :: insertByHash hash x ys

/-- Modelled behaviour of CPython `list(set(xs))` for strings: the result
holds each distinct element of `xs` exactly once, but in the hash-table
iteration order, not in insertion order. We model the iteration order as
ascending string hash (stable on ties), which matches CPython's
open-addressed table scan for small collision-free sets; CPython randomizes
string hashes per process, so the hash function is a parameter of the
model. -/
def listSet (hash : String → Nat) (xs : List String) : List String :=
  (dedupFirst [] xs).foldr (insertByHash hash) []

/-- The gathering loop of `_consolidate_insights` (lines 133-164): walk the
agent analyses in order, skipping error entries, extending the four
consolidated lists. -/
def consolidateRaw (analyses : List (String × StageOutcome)) : ConsolidatedInsights :=
  analyses.foldl
    (fun acc entry =>
      match entry.2 with
      | .error _ => acc
      | .ok p =>
        let acc := { acc with keyLegalIssues := acc.keyLegalIssues ++ p.legalIssues.getD [] }
        let acc :=
          match p.complianceImplications with
          | some kvs =>
            { acc with complianceRequirements :=
                acc.complianceRequirements ++
                  kvs.foldl (fun l kv =>
                    match kv.2 with
                    | .list items => l ++ items
                    | .other => l) [] }
          | none => acc
        let acc :=
          match p.practicalImplications with
          | some kvs =>
            { acc with practicalImplications :=
                acc.practicalImplications ++
                  kvs.foldl (fun l kv =>
                    match kv.2 with
                    | .str v => l ++ [⟨kv.1, v, entry.1⟩]
                    | .other => l) [] }
          | none => acc
        match p.confidenceScore with
        | some q => { acc with confidenceMetrics := acc.confidenceMetrics ++ [(entry.1, q)] }
        | none => acc)
    ⟨[], [], [], []⟩

/-- `_consolidate_insights` (lines 121-170): gather, then
`list(set(...))` the `key_legal_issues` and `compliance_requirements`
lists. -/
def consolidateInsights (hash : String → Nat)
    (analyses : List (String × StageOutcome)) : ConsolidatedInsights :=
  let c := consolidateRaw analyses
  { c with
    keyLegalIssues := listSet hash c.keyLegalIssues,
    complianceRequirements := listSet hash c.complianceRequirements }

/-- The `summary` dictionary of `_generate_final_summary`; the code never
fills the last three lists. -/
structure FinalSummary where
  executiveOverview : String
  keyTakeaways : List String
  criticalActions : List String
  strategicImplications : List String
  nextSteps : List String
deriving DecidableEq, Repr

/-- Takeaway strings contributed by one field value:
`f"[{agent_name.upper()}] {item}"` per item of a list, the same for a bare
string, nothing otherwise. -/
def takeawayStrings (name : String) (v : TkVal) : List String :=
  match v with
  | .list items => items.map (fun item => "[" ++ name.toUpper ++ "] " ++ item)
  | .str s => ["[" ++ name.toUpper ++ "] " ++ s]
  | .other => []

/-- All takeaways of one payload, over the five takeaway fields in the
code's order. -/
def payloadTakeaways (name : String) (p : AgentPayload) : List String :=
  ((p.keyTakeaways.map (takeawayStrings name)).getD []) ++
    ((p.csActionItems.map (takeawayStrings name)).getD []) ++
    ((p.keyPrinciples.map (takeawayStrings name)).getD []) ++
    ((p.practicalGuidance.map (takeawayStrings name)).getD []) ++
    ((p.recommendations.map (takeawayStrings name)).getD [])

/-- `_generate_final_summary` (lines 172-226): overview from the legal
analyst's `case_summary` and the CS expert's `executive_summary`, takeaways
from all non-error agents, deduplicated preserving order
(`dict.fromkeys`) and truncated to 10. -/
def generateFinalSummary (analyses : List (String × StageOutcome)) : FinalSummary :=
  let overviewParts :=
    (match analyses.lookup "legal_analyst" with
     | some (.ok p) =>
       match p.caseSummary with
       | some cs => ["Legal Analysis: " ++ cs]
       | none => []
     | _ => []) ++
    (match analyses.lookup "cs_expert" with
     | some (.ok p) =>
       match p.executiveSummary with
       | some es => ["CS Perspective: " ++ es]
       | none => []
     | _ => [])
  let takeaways := analyses.foldl
    (fun acc entry =>
      match entry.2 with
      | .error _ => acc
      | .ok p => acc ++ payloadTakeaways entry.1 p) []
  { executiveOverview := String.intercalate " | " overviewParts,
    keyTakeaways := (dedupFirst [] takeaways).take 10,
    criticalActions := [], strategicImplications := [], nextSteps := [] }

/-- The `document_metadata` entry of the results (wall-clock timestamp not
modelled). -/
structure AnalysisMetadata where
  workflowType : String
  userQuery : Option String
  agentsInvolved : List String
deriving DecidableEq, Repr

/-- The `analysis_results` dictionary returned by `analyze_document`. -/
structure AnalysisResults where
  metadata : AnalysisMetadata
  agentAnalyses : List (String × StageOutcome)
  consolidatedInsights : ConsolidatedInsights
  qualityAssessment : Option StageOutcome
  finalSummary : FinalSummary

/-- `AgentOrchestrator.analyze_document` (lines 37-119): unknown workflow
names fall back to `"comprehensive"`; the selected agent sequence is run in
order with error isolation; insights are consolidated; the quality
reviewer's entry (if any) is copied to `quality_assessment`; the final
summary is generated. -/
def analyzeDocument (hash : String → Nat)
    (instances : List (String × (StageInput → Except String AgentPayload)))
    (documentText : String) (userQuery : Option String)
    (workflowType : String) (baseContext : List (String × String)) :
    AnalysisResults :=
  let wt := if (analysisWorkflows.lookup workflowType).isNone then "comprehensive"
    else workflowType
  let agentSequence := (analysisWorkflows.lookup wt).getD []
  let r := runAgents instances documentText userQuery baseContext agentSequence []
  { metadata := { workflowType := wt, userQuery := userQuery, agentsInvolved := agentSequence },
    agentAnalyses := r.1,
    consolidatedInsights := consolidateInsights hash r.1,
    qualityAssessment := r.1.lookup "quality_reviewer",
    finalSummary := generateFinalSummary r.1 }

/-! ## `QualityAssuranceEngine` (`app/services/quality_assurance.py`)

The analysis dictionary fed to the engine is modelled by the keys the
engine probes. Scores are exact rationals standing for the Python floats.
Presence-with-convertibility of a numeric field is one `Option` (absence
and a failed `float(...)` conversion both make the code skip the value, so
they are behaviourally the same). Issue message strings are abstracted to
tags. -/

/-- A `confidence_level` value: one of the mapped strings, or any other
(hashable) value, which `confidence_map.get(value, 0.50)` sends to 0.50. -/
inductive ConfLevel where
  | high
  | medium
  | low
  | otherVal
deriving DecidableEq, Repr

/-- `confidence_map = {"high": 0.95, "medium": 0.75, "low": 0.50}` with
default 0.50. -/
def confidenceMap : ConfLevel → ℚ
  | .high => 95 / 100
  | .medium => 75 / 100
  | .low => 1 / 2
  | .otherVal => 1 / 2

/-- The `citations_analysis` sub-dictionary: truthiness of
`cases_cited` and `distinguishing_factors`. -/
structure CitationsAnalysis where
  casesCited : Bool
  distinguishingFactors : Bool
deriving DecidableEq, Repr

/-- An agent-result dictionary as probed by the QA engine. The `has...`
booleans are key presence for the structural checks; `reprLen` is
`len(str(agent_result))` for the completeness heuristic. -/
structure QADict where
  confidenceScore : Option ℚ := none
  confidenceLevel : Option ConfLevel := none
  overallQualityScore : Option ℚ := none
  hasCaseSummary : Bool := false
  hasLegalIssues : Bool := false
  hasCourtReasoning : Bool := false
  hasPrecedentAnalysis : Bool := false
  hasExecutiveSummary : Bool := false
  hasComplianceImplications : Bool := false
  hasPracticalGuidance : Bool := false
  hasCsActionItems : Bool := false
  citationsAnalysis : Option CitationsAnalysis := none
  reprLen : Nat := 0
deriving DecidableEq, Repr

/-- An `agent_analyses` value: a dictionary, or a non-dict value (those are
skipped by the score loop; on a non-dict, the structural `field in value`
probes are modelled as absent). -/
inductive QAItem where
  | dict (d : QADict)
  | other
deriving DecidableEq, Repr

/-- The analysis dictionary handed to the QA engine. `agentAnalyses` empty
stands for the key being absent or empty (behaviourally identical).
`consolidatedInsights = some b` means the key is present and truthy with
`b` the truthiness of its `key_legal_issues`; `none` means absent or
falsy. `finalSummaryTruthy` is the truthiness of `final_summary`. -/
structure QAAnalysis where
  agentAnalyses : List (String × QAItem) := []
  consolidatedInsights : Option Bool := none
  finalSummaryTruthy : Bool := false
deriving DecidableEq, Repr

/-- The score-collection loop of `calculate_overall_quality_score`
(lines 28-55): per agent name, the confidence field that name reports. -/
def extractScores (items : List (String × QAItem)) : List ℚ :=
  items.foldl
    (fun scores entry =>
      match entry.2 with
      | .other => scores
      | .dict d =>
        if entry.1 == "legal_analyst" then
          match d.confidenceScore with
          | some q => scores ++ [q]
          | none => scores
        else if entry.1 == "cs_expert" then
          match d.confidenceLevel with
          | some l => scores ++ [confidenceMap l]
          | none => scores
        else if entry.1 == "quality_reviewer" then
          match d.overallQualityScore with
          | some q => scores ++ [q]
          | none => scores
        else scores) []

/-- `QualityAssuranceEngine._assess_content_completeness` (lines 70-99). -/
def assessContentCompleteness (a : QAAnalysis) : ℚ :=
  let presentSections : Nat :=
    (if a.consolidatedInsights.isSome then 1 else 0) +
      (if a.finalSummaryTruthy then 1 else 0) +
      (if !a.agentAnalyses.isEmpty then 1 else 0)
  let agentsWithContent : Nat :=
    a.agentAnalyses.countP (fun entry =>
      match entry.2 with
      | .dict d => decide (100 < d.reprLen)
      | .other => false)
  min ((presentSections : ℚ) / 3 * (2 / 5) + (agentsWithContent : ℚ) / 3 * (3 / 10) +
    (if a.consolidatedInsights.getD false then 3 / 10 else 0)) 1

/-- `QualityAssuranceEngine.calculate_overall_quality_score` (lines 25-68):
collect per-agent confidence signals; fall back to the completeness
heuristic when none; weight 0.3/0.3/0.4 when three signals, else the plain
average. -/
def calculateOverallQualityScore (a : QAAnalysis) : ℚ :=
  let scores := extractScores a.agentAnalyses
  let scores := if scores.isEmpty then [assessContentCompleteness a] else scores
  if 3 ≤ scores.length then
    scores.getD 0 0 * (3 / 10) + scores.getD 1 0 * (3 / 10) + scores.getD 2 0 * (2 / 5)
  else if scores.isEmpty then 0
  else scores.sum / scores.length

/-- Issue tags standing for the issue message strings. -/
inductive QAIssue where
  | belowThreshold
  | legalStructureMissing
  | csStructureMissing
  | noCasesCited
  | lacksDistinguishingFactors
deriving DecidableEq, Repr

/-- `_validate_legal_analysis_structure` (lines 141-151). -/
def legalStructureOk : QAItem → Bool
  | .dict d => d.hasCaseSummary && d.hasLegalIssues && d.hasCourtReasoning &&
      d.hasPrecedentAnalysis
  | .other => false

/-- `_validate_cs_analysis_structure` (lines 153-163). -/
def csStructureOk : QAItem → Bool
  | .dict d => d.hasExecutiveSummary && d.hasComplianceImplications &&
      d.hasPracticalGuidance && d.hasCsActionItems
  | .other => false

/-- `_validate_citations` (lines 165-184): only runs when the legal
analyst's entry carries a `citations_analysis`. -/
def validateCitations (a : QAAnalysis) : List QAIssue :=
  match a.agentAnalyses.lookup "legal_analyst" with
  | some (.dict d) =>
    match d.citationsAnalysis with
    | some c =>
      (if !c.casesCited then [.noCasesCited] else []) ++
        (if !c.distinguishingFactors then [.lacksDistinguishingFactors] else [])
    | none => []
  | _ => []

/-- `QualityAssuranceEngine.validate_quality_threshold` (lines 101-139):
returns `(passes_threshold, quality_score, issues)`; each failed structural
check appends its issue and forces `passes_threshold` to `False`. -/
def validateQualityThreshold (a : QAAnalysis) : Bool × ℚ × List QAIssue :=
  let q := calculateOverallQualityScore a
  let passes : Bool := decide ((95 : ℚ) / 100 ≤ q)
  let issues : List QAIssue := if passes then [] else [.belowThreshold]
  let pi1 : Bool × List QAIssue :=
    match a.agentAnalyses.lookup "legal_analyst" with
    | some la =>
      if !legalStructureOk la then (false, issues ++ [.legalStructureMissing])
      else (passes, issues)
    | none => (passes, issues)
  let pi2 : Bool × List QAIssue :=
    match a.agentAnalyses.lookup "cs_expert" with
    | some cs =>
      if !csStructureOk cs then (false, pi1.2 ++ [.csStructureMissing])
      else (pi1.1, pi1.2)
    | none => (pi1.1, pi1.2)
  let cit := validateCitations a
  let pi3 : Bool × List QAIssue :=
    if !cit.isEmpty then (false, pi2.2 ++ cit) else (pi2.1, pi2.2)
  (pi3.1, q, pi3.2)

/-- Whether the legal analyst's structural check does not fail (vacuously
true when the agent is absent). -/
def legalPassed (a : QAAnalysis) : Bool :=
  match a.agentAnalyses.lookup "legal_analyst" with
  | some la => legalStructureOk la
  | none => true

/-- Whether the CS expert's structural check does not fail (vacuously true
when the agent is absent). -/
def csPassed (a : QAAnalysis) : Bool :=
  match a.agentAnalyses.lookup "cs_expert" with
  | some cs => csStructureOk cs
  | none => true

/-- Modelled from the spec: "when some stages errored or were skipped,
renormalize remaining weights proportionally" over the fixed weights 0.3
(legal analyst) / 0.3 (CS expert) / 0.4 (quality reviewer); `signals` pairs
each reporting stage with its confidence signal. -/
def specWeight : String → ℚ
  | "legal_analyst" => 3 / 10
  | "cs_expert" => 3 / 10
  | "quality_reviewer" => 2 / 5
  | _ => 0

/-- Modelled from the spec: the proportionally renormalized weighted
combination of the reporting stages' signals (0 when no stage reported). -/
def specRenormalizedScore (signals : List (String × ℚ)) : ℚ :=
  let total := (signals.map (fun p => specWeight p.1)).sum
  if total = 0 then 0
  else (signals.map (fun p => specWeight p.1 * p.2)).sum / total

/-! ## `DocumentProcessor` (`app/scrapers/document_processor.py`) and the
aggregate counting of `IngestionService._process_scraped_documents`
(`app/services/ingestion_service.py` lines 35-49)

The database is modelled as the list of stored documents (id and content
hash); the PDF download (`_download_pdf`, a scraper round trip) and the
pdfminer/pypdf extraction are external collaborators passed in as
functions, extraction fallibly (`extract_text_from_pdf` re-raises). -/

/-- The status of one per-document outcome record. -/
inductive DocStatus where
  | success (documentId : Nat)
  | duplicate (documentId : Nat)
  | error (msg : String)
deriving DecidableEq, Repr

/-- One per-document outcome record (auxiliary reporting fields such as
title and text length omitted). -/
structure OutcomeRec where
  url : Option String
  status : DocStatus
deriving DecidableEq, Repr

/-- A stored document row, keyed by content hash for deduplication. -/
structure StoredDoc where
  docId : Nat
  contentHash : List Char
deriving DecidableEq, Repr

/-- A scraped candidate (fields beyond the URL are only copied into stored
metadata and are omitted). -/
structure Candidate where
  url : Option String
deriving DecidableEq, Repr

/-- The external collaborators of the per-document pipeline. -/
structure ProcEnv where
  download : Candidate → Option (List Nat)
  extract : List Nat → Except String (List Char)

/-- The deduplication hash of `DocumentProcessor._process_single_document`
(line 91): `hashlib.sha256(pdf_content).hexdigest()` over the raw
downloaded bytes. -/
def processorContentHash (pdfContent : List Nat) : List Char :=
  sha256Hex pdfContent

/-- `DocumentProcessor._process_single_document` (lines 69-151): no URL or
failed download give an error outcome; the raw-byte content hash is checked
against the store for duplicates; then the text is extracted (which may
raise — propagated to the caller), checked for minimum length 100, and the
document is persisted with a fresh id (the store itself is modelled as
reliable). -/
def processSingleDocument (env : ProcEnv) (db : List StoredDoc) (doc : Candidate) :
    Except String (OutcomeRec × List StoredDoc) :=
  match doc.url with
  | none => .ok (⟨none, .error "No URL provided"⟩, db)
  | some url =>
    match env.download doc with
    | none => .ok (⟨some url, .error "Failed to download PDF content"⟩, db)
    | some pdfContent =>
      let contentHash := processorContentHash pdfContent
      match db.find? (fun d => d.contentHash == contentHash) with
      | some existing => .ok (⟨some url, .duplicate existing.docId⟩, db)
      | none =>
        match extractTextFromPdf env.extract pdfContent with
        | .error e => .error e
        | .ok extracted =>
          if extracted.1.length < 100 then
            .ok (⟨some url, .error "Failed to extract sufficient text from PDF"⟩, db)
          else
            .ok (⟨some url, .success db.length⟩, ⟨db.length, contentHash⟩ :: db)

/-- `DocumentProcessor.process_scraped_documents` (lines 27-67): process the
candidates in order, catching any exception from a single document as an
error outcome for that document, and return one outcome per candidate. -/
def processScrapedDocuments (env : ProcEnv) :
    List Candidate → List StoredDoc → List OutcomeRec × List StoredDoc
  | [], db => ([], db)
  | doc :: docs, db =>
    match processSingleDocument env db doc with
    | .ok (r, db1) =>
      let rest := processScrapedDocuments env docs db1
      (r :: rest.1, rest.2)
    | .error e =>
      let rest := processScrapedDocuments env docs db
      (⟨doc.url, .error e⟩ :: rest.1, rest.2)

/-- One gathered result of `IngestionService._process_scraped_documents`
(`asyncio.gather(..., return_exceptions=True)`): an exception, or
`_process_and_store_document`'s return value — `None` for a skipped or
duplicate document, an id string (modelled as `Nat`) for a stored one. -/
abbrev IngestResult := Except String (Option Nat)

/-- `success_count` (line 40): results that are neither exceptions nor
`None`. -/
def successCount (results : List IngestResult) : Nat :=
  results.countP (fun r =>
    match r with
    | .ok (some _) => true
    | _ => false)

/-- `error_count` (line 41): results that are exceptions. -/
def errorCount (results : List IngestResult) : Nat :=
  results.countP (fun r =>
    match r with
    | .error _ => true
    | _ => false)

/-- `duplicate_count` (line 42): results that are `None`. -/
def duplicateCount (results : List IngestResult) : Nat :=
  results.countP (fun r =>
    match r with
    | .ok none => true
    | _ => false)

/-! ## Helper lemmas -/

theorem mem_insertByHash {hash : String → Nat} {x a : String} :
    ∀ {l : List String}, a ∈ insertByHash hash x l ↔ a = x ∨ a ∈ l := by
  intro l
  induction l with
  | nil => simp [insertByHash]
  | cons y ys ih =>
    by_cases h : hash x ≤ hash y
    · simp [insertByHash, h]
    · simp only [insertByHash, if_neg h, List.mem_cons, ih]
      tauto

theorem nodup_insertByHash {hash : String → Nat} {x : String} :
    ∀ {l : List String}, x ∉ l → l.Nodup → (insertByHash hash x l).Nodup := by
  intro l
  induction l with
  | nil => intro _ _; simp [insertByHash]
  | cons y ys ih =>
    intro hx hn
    rw [List.nodup_cons] at hn
    by_cases h : hash x ≤ hash y
    · rw [insertByHash, if_pos h]
      exact List.nodup_cons.mpr ⟨hx, List.nodup_cons.mpr hn⟩
    · rw [insertByHash, if_neg h]
      refine List.nodup_cons.mpr ⟨?_, ih (fun hm => hx (List.mem_cons_of_mem _ hm)) hn.2⟩
      rw [mem_insertByHash]
      rintro (rfl | hm)
      · exact hx (List.mem_cons_self _ _)
      · exact hn.1 hm

theorem mem_dedupFirst {a : String} :
    ∀ (l seen : List String), a ∈ dedupFirst seen l ↔ a ∈ l ∧ ¬seen.contains a := by
  intro l
  induction l with
  | nil => simp [dedupFirst]
  | cons y ys ih =>
    intro seen
    by_cases h : seen.contains y
    · rw [dedupFirst, if_pos h, ih]
      constructor
      · exact fun ⟨hm, hs⟩ => ⟨List.mem_cons_of_mem _ hm, hs⟩
      · rintro ⟨hm, hs⟩
        rcases List.mem_cons.mp hm with rfl | hm
        · exact absurd h hs
        · exact ⟨hm, hs⟩
    · rw [dedupFirst, if_neg h]
      simp only [List.mem_cons, ih, List.contains_cons]
      constructor
      · rintro (rfl | ⟨hm, hs⟩)
        · exact ⟨Or.inl rfl, h⟩
        · simp only [Bool.or_eq_true, beq_iff_eq] at hs
          exact ⟨Or.inr hm, fun hc => hs (Or.inr hc)⟩
      · rintro ⟨rfl | hm, hs⟩
        · exact Or.inl rfl
        · by_cases hay : a = y
          · exact Or.inl hay
          · refine Or.inr ⟨hm, ?_⟩
            simp only [Bool.or_eq_true, beq_iff_eq]
            rintro (rfl | hc)
            · exact hay rfl
            · exact hs hc

theorem nodup_dedupFirst : ∀ (l seen : List String), (dedupFirst seen l).Nodup := by
  intro l
  induction l with
  | nil => intro seen; simp [dedupFirst]
  | cons y ys ih =>
    intro seen
    by_cases h : seen.contains y
    · rw [dedupFirst, if_pos h]; exact ih seen
    · rw [dedupFirst, if_neg h]
      refine List.nodup_cons.mpr ⟨?_, ih (y :: seen)⟩
      rw [mem_dedupFirst]
      rintro ⟨-, hs⟩
      exact hs (by simp [List.contains_cons])

theorem mem_foldr_insertByHash {hash : String → Nat} {a : String} :
    ∀ (l : List String), a ∈ l.foldr (insertByHash hash) [] ↔ a ∈ l := by
  intro l
  induction l with
  | nil => simp
  | cons y ys ih => simp [List.foldr_cons, mem_insertByHash, ih]

theorem nodup_foldr_insertByHash {hash : String → Nat} :
    ∀ {l : List String}, l.Nodup → (l.foldr (insertByHash hash) []).Nodup := by
  intro l
  induction l with
  | nil => intro _; simp
  | cons y ys ih =>
    intro hn
    rw [List.nodup_cons] at hn
    exact nodup_insertByHash (fun hm => hn.1 ((mem_foldr_insertByHash ys).mp hm)) (ih hn.2)

theorem mem_listSet {hash : String → Nat} {a : String} {xs : List String} :
    a ∈ listSet hash xs ↔ a ∈ xs := by
  rw [listSet, mem_foldr_insertByHash, mem_dedupFirst]
  simp

theorem nodup_listSet {hash : String → Nat} {xs : List String} :
    (listSet hash xs).Nodup :=
  nodup_foldr_insertByHash (nodup_dedupFirst xs [])

/-- Closed-form characterization of `validate_quality_threshold`: the
verdict is the conjunction of the threshold check and the three structural
checks, the reported score is the computed score, and the issues list is
the concatenation of each failed check's issue. -/
theorem validate_eq (a : QAAnalysis) :
    validateQualityThreshold a
      = ((decide ((95 : ℚ) / 100 ≤ calculateOverallQualityScore a) && legalPassed a &&
            csPassed a && (validateCitations a).isEmpty),
         calculateOverallQualityScore a,
         (if decide ((95 : ℚ) / 100 ≤ calculateOverallQualityScore a) then []
            else [QAIssue.belowThreshold]) ++
           (if legalPassed a then [] else [QAIssue.legalStructureMissing]) ++
           (if csPassed a then [] else [QAIssue.csStructureMissing]) ++
           validateCitations a) := by
  simp only [validateQualityThreshold, legalPassed, csPassed]
  repeat' split
  all_goals simp_all [List.isEmpty_iff]

/-! ## Claim theorems -/

/-- C6 (counterexample): consolidation does not preserve first-seen order.
With issues `["aa", "b"]` gathered in that order and a hash assignment under
which `"b"` hashes below `"aa"` (string hashes are process-randomized in
CPython, so some runs produce exactly this table order), the consolidated
`key_legal_issues` list is `["b", "aa"]`, not the first-seen order
`["aa", "b"]`. -/
theorem consolidate_order_not_preserved :
    (consolidateInsights String.length
        [("legal_analyst", .ok { legalIssues := some ["aa", "b"] })]).keyLegalIssues
      = ["b", "aa"] ∧
    dedupFirst []
        (consolidateRaw
          [("legal_analyst", .ok { legalIssues := some ["aa", "b"] })]).keyLegalIssues
      = ["aa", "b"] ∧
    (["b", "aa"] : List String) ≠ ["aa", "b"] := by
  refine ⟨by decide, by decide, by decide⟩

/-- C6 (amended): `_consolidate_insights` removes exact duplicates — the
consolidated `key_legal_issues` and `compliance_requirements` lists contain
each distinct gathered finding exactly once — but their order is the
hash-determined Python set-iteration order, which need not be the first-seen
order; the `practical_implications` and `confidence_metrics` lists are the
gathered ones, unchanged. -/
theorem consolidate_dedups_exactly_once
    (hash : String → Nat) (analyses : List (String × StageOutcome)) :
    ((consolidateInsights hash analyses).keyLegalIssues.Nodup ∧
      ∀ x, x ∈ (consolidateInsights hash analyses).keyLegalIssues ↔
        x ∈ (consolidateRaw analyses).keyLegalIssues) ∧
    ((consolidateInsights hash analyses).complianceRequirements.Nodup ∧
      ∀ x, x ∈ (consolidateInsights hash analyses).complianceRequirements ↔
        x ∈ (consolidateRaw analyses).complianceRequirements) ∧
    (consolidateInsights hash analyses).practicalImplications
      = (consolidateRaw analyses).practicalImplications ∧
    (consolidateInsights hash analyses).confidenceMetrics
      = (consolidateRaw analyses).confidenceMetrics := by
  exact ⟨⟨nodup_listSet, fun x => mem_listSet⟩,
    ⟨nodup_listSet, fun x => mem_listSet⟩, rfl, rfl⟩

/-- C10: any workflow name that is not one of the four defined workflows is
silently replaced by `"comprehensive"`: the whole analysis result is the one
the comprehensive workflow produces, the recorded workflow type is
`"comprehensive"`, and the recorded agent sequence is the comprehensive
one. -/
theorem unknown_workflow_falls_back_to_comprehensive
    (hash : String → Nat)
    (instances : List (String × (StageInput → Except String AgentPayload)))
    (documentText : String) (userQuery : Option String)
    (workflowType : String) (baseContext : List (String × String))
    (h : analysisWorkflows.lookup workflowType = none) :
    analyzeDocument hash instances documentText userQuery workflowType baseContext
      = analyzeDocument hash instances documentText userQuery "comprehensive" baseContext ∧
    (analyzeDocument hash instances documentText userQuery workflowType
        baseContext).metadata.workflowType = "comprehensive" ∧
    (analyzeDocument hash instances documentText userQuery workflowType
        baseContext).metadata.agentsInvolved
      = ["legal_analyst", "cs_expert", "quality_reviewer"] := by
  refine ⟨?_, ?_, ?_⟩ <;> (simp [analyzeDocument, h]; try decide)

/-- C10 (witness): the unknown workflow name `"bogus"` runs the
comprehensive sequence. -/
theorem unknown_workflow_falls_back_to_comprehensive_witness :
    analyzeDocument (fun _ => 0) [] "doc" none "bogus" []
      = analyzeDocument (fun _ => 0) [] "doc" none "comprehensive" [] ∧
    (analyzeDocument (fun _ => 0) [] "doc" none "bogus" []).metadata.workflowType
      = "comprehensive" :=
  ⟨(unknown_workflow_falls_back_to_comprehensive (fun _ => 0) [] "doc" none "bogus" []
      rfl).1,
   (unknown_workflow_falls_back_to_comprehensive (fun _ => 0) [] "doc" none "bogus" []
      rfl).2.1⟩

/-- C5: stage failures are isolated. For stages `[A, B, C]` where `A`
succeeds with `ra` on the context it is given, `B` raises `e`, and `C`
succeeds with `rc`, the orchestrator loop records successful outcomes for
`A` and `C` and an error-tagged outcome for `B`, still executes `C`, and
`C` receives the context containing exactly `A`'s prior output (the failed
stage's contribution absent). -/
theorem stage_failure_is_isolated
    (A B C : String)
    (fA fB fC : StageInput → Except String AgentPayload)
    (documentText : String) (userQuery : Option String)
    (baseContext : List (String × String))
    (ra rc : AgentPayload) (e : String)
    (hAB : A ≠ B) (hAC : A ≠ C) (hBC : B ≠ C)
    (hA : fA ⟨documentText, userQuery, baseContext, [], A⟩ = .ok ra)
    (hB : fB ⟨documentText, userQuery, baseContext, [(A, ra)], B⟩ = .error e)
    (hC : fC ⟨documentText, userQuery, baseContext, [(A, ra)], C⟩ = .ok rc) :
    runAgents [(A, fA), (B, fB), (C, fC)] documentText userQuery baseContext
        [A, B, C] []
      = ([(A, .ok ra), (B, .error ("Analysis failed: " ++ e)), (C, .ok rc)],
         [(A, ra), (C, rc)]) := by
  have hBA : (B == A) = false := beq_eq_false_iff_ne.mpr (Ne.symm hAB)
  have hCA : (C == A) = false := beq_eq_false_iff_ne.mpr (Ne.symm hAC)
  have hCB : (C == B) = false := beq_eq_false_iff_ne.mpr (Ne.symm hBC)
  simp [runAgents, List.lookup, hBA, hCA, hCB, hA, hB, hC]

/-- C5 (witness): a concrete three-stage run with the middle stage raising. -/
theorem stage_failure_is_isolated_witness :
    runAgents
        [("a", fun _ => .ok {}), ("b", fun _ => .error "boom"),
         ("c", fun _ => .ok { caseSummary := some "cs" })]
        "doc" none [] ["a", "b", "c"] []
      = ([("a", .ok {}), ("b", .error ("Analysis failed: " ++ "boom")),
          ("c", .ok { caseSummary := some "cs" })],
         [("a", {}), ("c", { caseSummary := some "cs" })]) :=
  stage_failure_is_isolated "a" "b" "c" _ _ _ "doc" none [] {}
    { caseSummary := some "cs" } "boom"
    (by decide) (by decide) (by decide) rfl rfl rfl

/-- C8: a batch ingestion run always completes — the batch loop returns
exactly one outcome per candidate; an exception raised while processing one
candidate is recorded as that candidate's error outcome and the remaining
candidates are still processed; and the aggregate success/duplicate/error
counts computed over the gathered results partition them (they always sum
to the number of candidates). -/
theorem batch_ingestion_always_completes :
    (∀ (env : ProcEnv) (docs : List Candidate) (db : List StoredDoc),
      (processScrapedDocuments env docs db).1.length = docs.length) ∧
    (∀ (env : ProcEnv) (doc : Candidate) (docs : List Candidate)
        (db : List StoredDoc) (e : String),
      processSingleDocument env db doc = .error e →
      processScrapedDocuments env (doc :: docs) db
        = (⟨doc.url, .error e⟩ :: (processScrapedDocuments env docs db).1,
           (processScrapedDocuments env docs db).2)) ∧
    (∀ results : List IngestResult,
      successCount results + duplicateCount results + errorCount results
        = results.length) := by
  refine ⟨?_, ?_, ?_⟩
  · intro env docs
    induction docs with
    | nil => intro db; rfl
    | cons doc rest ih =>
      intro db
      rw [processScrapedDocuments]
      cases h : processSingleDocument env db doc with
      | ok p => simp [ih]
      | error e => simp [ih]
  · intro env doc docs db e h
    rw [processScrapedDocuments, h]
  · intro results
    induction results with
    | nil => rfl
    | cons r rest ih =>
      rcases r with e | (_ | n) <;>
        simp [successCount, duplicateCount, errorCount, List.countP_cons] at ih ⊢ <;>
        omega

/-- C8 (witness): a first candidate whose text extraction raises is
reported as an error outcome and the second candidate is still processed. -/
theorem batch_ingestion_always_completes_witness :
    processSingleDocument
        ⟨fun _ => some [1], fun _ => .error "pdf parse failed"⟩ [] ⟨some "u1"⟩
      = .error "pdf parse failed" ∧
    processScrapedDocuments
        ⟨fun _ => some [1], fun _ => .error "pdf parse failed"⟩
        [⟨some "u1"⟩, ⟨some "u2"⟩] []
      = (⟨some "u1", .error "pdf parse failed"⟩ ::
          (processScrapedDocuments
            ⟨fun _ => some [1], fun _ => .error "pdf parse failed"⟩
            [⟨some "u2"⟩] []).1,
         (processScrapedDocuments
            ⟨fun _ => some [1], fun _ => .error "pdf parse failed"⟩
            [⟨some "u2"⟩] []).2) :=
  ⟨rfl,
   batch_ingestion_always_completes.2.1
     ⟨fun _ => some [1], fun _ => .error "pdf parse failed"⟩
     ⟨some "u1"⟩ [⟨some "u2"⟩] [] "pdf parse failed" rfl⟩

/-- C4: the quality gate approves exactly when the weighted score reaches
the 0.95 threshold and every structural check passes; the reported score is
the computed score; and each failed structural check (missing legal-analysis
structure, missing CS-analysis structure, or any citation issue such as zero
cited cases) independently forces a flagged verdict with its reason
appended to the issues list, even when the score alone is at or above the
threshold. -/
theorem quality_gate_routing (a : QAAnalysis) :
    (validateQualityThreshold a).1
      = (decide ((95 : ℚ) / 100 ≤ calculateOverallQualityScore a) && legalPassed a &&
          csPassed a && (validateCitations a).isEmpty) ∧
    ((validateQualityThreshold a).1 = true ↔
      ((95 : ℚ) / 100 ≤ calculateOverallQualityScore a ∧ legalPassed a = true ∧
        csPassed a = true ∧ validateCitations a = [])) ∧
    (validateQualityThreshold a).2.1 = calculateOverallQualityScore a ∧
    (legalPassed a = false →
      (validateQualityThreshold a).1 = false ∧
        QAIssue.legalStructureMissing ∈ (validateQualityThreshold a).2.2) ∧
    (csPassed a = false →
      (validateQualityThreshold a).1 = false ∧
        QAIssue.csStructureMissing ∈ (validateQualityThreshold a).2.2) ∧
    (∀ i ∈ validateCitations a,
      (validateQualityThreshold a).1 = false ∧ i ∈ (validateQualityThreshold a).2.2) := by
  have main := validate_eq a
  refine ⟨?_, ?_, ?_, ?_, ?_, ?_⟩
  · rw [main]
  · rw [main]
    simp only [Bool.and_eq_true, decide_eq_true_eq, List.isEmpty_iff]
    tauto
  · rw [main]
  · intro hfail
    rw [main, hfail]
    simp
  · intro hfail
    rw [main, hfail]
    simp
  · intro i him
    have hne : validateCitations a ≠ [] := fun hnil => by simp [hnil] at him
    rw [main]
    simp [List.isEmpty_iff, hne, him]

/-- C3 (counterexample): the overall score is not the proportional
renormalization of the fixed 0.3/0.3/0.4 weights when stages are missing,
and it is not 0 when no stage produced a usable signal. With only the legal
analyst (confidence 1) and the quality reviewer (score 0) reporting, the
code computes the unweighted average 1/2, while the renormalized fixed
weights give 3/7; and with no usable signal but a truthy
`consolidated_insights` carrying `key_legal_issues`, the code falls back to
the completeness heuristic, giving 17/30, not 0. -/
theorem quality_score_weighting_counterexample :
    calculateOverallQualityScore
        ⟨[("legal_analyst", .dict { confidenceScore := some 1 }),
          ("quality_reviewer", .dict { overallQualityScore := some 0 })], none, false⟩
      = 1 / 2 ∧
    specRenormalizedScore [("legal_analyst", 1), ("quality_reviewer", 0)] = 3 / 7 ∧
    ((1 : ℚ) / 2) ≠ 3 / 7 ∧
    calculateOverallQualityScore ⟨[("legal_analyst", .dict {})], some true, false⟩
      = 17 / 30 ∧
    ((17 : ℚ) / 30) ≠ 0 := by
  refine ⟨?_, ?_, by norm_num, ?_, by norm_num⟩
  · simp +decide only [calculateOverallQualityScore, extractScores, List.foldl]
    norm_num
  · norm_num [specRenormalizedScore, specWeight]
  · simp +decide only [calculateOverallQualityScore, extractScores, List.foldl,
      assessContentCompleteness, List.countP, List.countP.go]
    norm_num

/-- C3 (amended): when all three expected stages report a usable signal the
score is the fixed-weight combination 0.3/0.3/0.4 (weights summing to 1,
quality reviewer weighted 0.4); when only some stages report, the score is
the plain unweighted average of the reported signals (not a proportional
renormalization of the fixed weights); and when no stage reports a usable
signal, the score is the content-completeness fallback (not 0). -/
theorem quality_score_weighting
    (d1 d2 d3 : QADict) (s1 s3 : ℚ) (lvl : ConfLevel)
    (ci : Option Bool) (fs : Bool) :
    calculateOverallQualityScore
        ⟨[("legal_analyst", .dict { d1 with confidenceScore := some s1 }),
          ("cs_expert", .dict { d2 with confidenceLevel := some lvl }),
          ("quality_reviewer", .dict { d3 with overallQualityScore := some s3 })],
         ci, fs⟩
      = s1 * (3 / 10) + confidenceMap lvl * (3 / 10) + s3 * (2 / 5) ∧
    calculateOverallQualityScore
        ⟨[("legal_analyst", .dict { d1 with confidenceScore := some s1 }),
          ("quality_reviewer", .dict { d3 with overallQualityScore := some s3 })],
         ci, fs⟩
      = (s1 + s3) / 2 ∧
    calculateOverallQualityScore
        ⟨[("legal_analyst", .dict { d1 with confidenceScore := none }),
          ("quality_reviewer", .dict { d3 with overallQualityScore := none })],
         ci, fs⟩
      = assessContentCompleteness
          ⟨[("legal_analyst", .dict { d1 with confidenceScore := none }),
            ("quality_reviewer", .dict { d3 with overallQualityScore := none })],
           ci, fs⟩ := by
  refine ⟨?_, ?_, ?_⟩ <;>
    (simp +decide only [calculateOverallQualityScore, extractScores, List.foldl]
     norm_num)

/-- C4 (witness): a concrete analysis whose legal-analysis structure check
fails is flagged with the corresponding reason. -/
theorem quality_gate_routing_witness :
    legalPassed ⟨[("legal_analyst", .dict { confidenceScore := some 1 })], none, false⟩
      = false ∧
    (validateQualityThreshold
        ⟨[("legal_analyst", .dict { confidenceScore := some 1 })], none, false⟩).1
      = false ∧
    QAIssue.legalStructureMissing ∈
      (validateQualityThreshold
        ⟨[("legal_analyst", .dict { confidenceScore := some 1 })], none, false⟩).2.2 := by
  have h := (quality_gate_routing
    ⟨[("legal_analyst", .dict { confidenceScore := some 1 })], none, false⟩).2.2.2.1 rfl
  exact ⟨rfl, h.1, h.2⟩

/-! ### Fetch-model lemmas -/

theorem rateLimit_failedUrls (rl : Int) (s : ScraperState) :
    (rateLimit rl s).failedUrls = s.failedUrls := by
  rcases lt_or_ge (s.clock - s.lastRequestTime) rl with h | h <;>
    simp [rateLimit, h, not_lt.mpr h]

theorem rateLimit_last_eq_clock (rl : Int) (s : ScraperState) :
    (rateLimit rl s).lastRequestTime = (rateLimit rl s).clock := by
  rcases lt_or_ge (s.clock - s.lastRequestTime) rl with h | h <;>
    simp [rateLimit, h, not_lt.mpr h]

theorem rateLimit_clock_ge (rl : Int) (s : ScraperState) :
    s.lastRequestTime + rl ≤ (rateLimit rl s).clock := by
  rcases lt_or_ge (s.clock - s.lastRequestTime) rl with h | h <;>
    simp [rateLimit, h, not_lt.mpr h] <;> omega

theorem fetchWithRetry_not_failed (rl : Int) (url : String) (resp : Nat → Resp)
    (m : Nat) (s : ScraperState) (h : s.failedUrls.contains url = false) :
    fetchWithRetry rl true url resp m s = fetchGo url resp m m (rateLimit rl s) := by
  have hmem : url ∉ s.failedUrls := by simpa using h
  simp [fetchWithRetry, hmem]

theorem fetchGo_lastRequestTime (url : String) (resp : Nat → Resp) (m : Nat) :
    ∀ (fuel : Nat) (s : ScraperState),
      (fetchGo url resp m fuel s).2.1.lastRequestTime = s.lastRequestTime := by
  intro fuel
  induction fuel with
  | zero => intro s; rfl
  | succ n ih =>
    intro s
    simp only [fetchGo]
    cases resp (m - (n + 1)) with
    | ok ct content => rfl
    | timeout => exact ih { s with clock := s.clock + 2 ^ (m - (n + 1)) }
    | exc => exact ih { s with clock := s.clock + 2 ^ (m - (n + 1)) }
    | status code ra =>
      dsimp only
      cases code == 429 with
      | true => exact ih { s with clock := s.clock + (ra.getD 60 : Nat) }
      | false =>
        cases code == 403 || code == 404 with
        | true => rfl
        | false => exact ih s

theorem fetchGo_headD (url : String) (resp : Nat → Resp) (m : Nat)
    (n : Nat) (s : ScraperState) :
    (fetchGo url resp m (n + 1) s).2.2.headD 0 = s.clock := by
  simp only [fetchGo]
  cases resp (m - (n + 1)) with
  | ok ct content => rfl
  | timeout => rfl
  | exc => rfl
  | status code ra =>
    by_cases h429 : (code == 429) = true
    · simp [h429]
    · simp only [h429]
      by_cases hnf : (code == 403 || code == 404) = true
      · simp [hnf]
      · simp [hnf]

theorem fetchGo_transient_spec (url : String) (resp : Nat → Resp) (m : Nat)
    (htr : ∀ a, transientResp (resp a) = true) :
    ∀ (fuel : Nat) (s : ScraperState), fuel ≤ m →
      (fetchGo url resp m fuel s).1 = none ∧
      (fetchGo url resp m fuel s).2.1.failedUrls = url :: s.failedUrls ∧
      (fetchGo url resp m fuel s).2.2 = attemptStarts resp (m - fuel) fuel s.clock := by
  intro fuel
  induction fuel with
  | zero => intro s _; exact ⟨rfl, rfl, rfl⟩
  | succ n ih =>
    intro s hle
    have hm : m - (n + 1) + 1 = m - n := by omega
    have htr' := htr (m - (n + 1))
    simp only [fetchGo]
    cases hr : resp (m - (n + 1)) with
    | ok ct content => rw [hr] at htr'; simp [transientResp] at htr'
    | timeout =>
      obtain ⟨h1, h2, h3⟩ := ih { s with clock := s.clock + 2 ^ (m - (n + 1)) } (by omega)
      refine ⟨h1, h2, ?_⟩
      rw [attemptStarts, hr]
      simp only [delayAfter, h3, hm]
    | exc =>
      obtain ⟨h1, h2, h3⟩ := ih { s with clock := s.clock + 2 ^ (m - (n + 1)) } (by omega)
      refine ⟨h1, h2, ?_⟩
      rw [attemptStarts, hr]
      simp only [delayAfter, h3, hm]
    | status code ra =>
      rw [hr] at htr'
      simp only [transientResp, Bool.not_eq_true'] at htr'
      by_cases h429 : (code == 429) = true
      · simp only [h429, if_true]
        obtain ⟨h1, h2, h3⟩ :=
          ih { s with clock := s.clock + (ra.getD 60 : Nat) } (by omega)
        refine ⟨h1, h2, ?_⟩
        rw [attemptStarts, hr]
        simp only [delayAfter, h429, if_true, h3, hm]
      · have h429f : (code == 429) = false := by
          simpa using h429
        simp only [h429f, if_false, htr', Bool.false_eq_true]
        obtain ⟨h1, h2, h3⟩ := ih s (by omega)
        refine ⟨h1, h2, ?_⟩
        rw [attemptStarts, hr]
        simp [delayAfter, h429f, h3, hm]

theorem attemptStarts_length (resp : Nat → Resp) :
    ∀ (fuel a : Nat) (t : Int), (attemptStarts resp a fuel t).length = fuel := by
  intro fuel
  induction fuel with
  | zero => intro a t; rfl
  | succ n ih => intro a t; simp [attemptStarts, ih]

theorem attemptStarts_getD (resp : Nat → Resp) :
    ∀ (fuel a : Nat) (t : Int) (i : Nat), i + 1 < fuel →
      (attemptStarts resp a fuel t).getD (i + 1) 0
        = (attemptStarts resp a fuel t).getD i 0 + delayAfter (resp (a + i)) (a + i) := by
  intro fuel
  induction fuel with
  | zero => intro a t i h; omega
  | succ n ih =>
    intro a t i h
    cases i with
    | zero =>
      obtain ⟨k, rfl⟩ : ∃ k, n = k + 1 := ⟨n - 1, by omega⟩
      simp [attemptStarts]
    | succ j =>
      have h' : j + 1 < n := by omega
      have hidx : a + 1 + j = a + (j + 1) := by omega
      have := ih (a + 1) (t + delayAfter (resp a) a) j h'
      rw [hidx] at this
      simpa [attemptStarts] using this

/-- C2 (counterexample): a fetch whose every attempt times out performs
exactly `max_retries` attempts — `for attempt in range(max_retries)` — not
`max_retries + 1`: with `max_retries = 3` there are 3 request starts, and
the fetch returns `None`. -/
theorem fetch_retry_bound_counterexample :
    (fetchWithRetry 1 true "u" (fun _ => Resp.timeout) 3 ⟨0, 0, []⟩).2.2.length = 3 ∧
    (fetchWithRetry 1 true "u" (fun _ => Resp.timeout) 3 ⟨0, 0, []⟩).2.2.length ≠ 3 + 1 ∧
    (fetchWithRetry 1 true "u" (fun _ => Resp.timeout) 3 ⟨0, 0, []⟩).1 = none := by
  decide

/-- C2 (amended): a fetch in which every attempt fails with a transient
condition (timeout, connection error, 429, or another non-200 status other
than 403/404) performs exactly `maxRetries` total attempts (not
`maxRetries + 1`), returns the exhausted-failure result `None` and records
the URL on the negative cache, and the delay between consecutive attempt
starts is `2 ** attempt` after a timeout or connection error, the
`Retry-After` value (default 60) after a 429, and zero after any other
non-success status (so an explicit retry-after value overrides the computed
backoff, and 5xx responses get no backoff at all). -/
theorem fetch_retry_bound (rl : Int) (url : String) (resp : Nat → Resp)
    (maxRetries : Nat) (s : ScraperState)
    (htr : ∀ a, transientResp (resp a) = true)
    (hnf : s.failedUrls.contains url = false) :
    (fetchWithRetry rl true url resp maxRetries s).1 = none ∧
    (fetchWithRetry rl true url resp maxRetries s).2.2.length = maxRetries ∧
    (fetchWithRetry rl true url resp maxRetries s).2.1.failedUrls = url :: s.failedUrls ∧
    ∀ i, i + 1 < maxRetries →
      (fetchWithRetry rl true url resp maxRetries s).2.2.getD (i + 1) 0
        = (fetchWithRetry rl true url resp maxRetries s).2.2.getD i 0
            + delayAfter (resp i) i := by
  have hunfold := fetchWithRetry_not_failed rl url resp maxRetries s hnf
  obtain ⟨h1, h2, h3⟩ := fetchGo_transient_spec url resp maxRetries htr maxRetries
    (rateLimit rl s) (le_refl _)
  rw [hunfold, h3, Nat.sub_self] at *
  refine ⟨h1, attemptStarts_length resp maxRetries 0 _, ?_, ?_⟩
  · rw [h2, rateLimit_failedUrls]
  · intro i hi
    have := attemptStarts_getD resp maxRetries 0 (rateLimit rl s).clock i hi
    simpa using this

/-- C2 (witness): with `max_retries = 2` and both attempts timing out, the
fetch makes exactly 2 attempts, returns `None`, and the delay between the
two attempt starts is `2 ** 0`. -/
theorem fetch_retry_bound_witness :
    (fetchWithRetry 2 true "u" (fun _ => Resp.timeout) 2 ⟨0, 0, []⟩).1 = none ∧
    (fetchWithRetry 2 true "u" (fun _ => Resp.timeout) 2 ⟨0, 0, []⟩).2.2.length = 2 ∧
    (fetchWithRetry 2 true "u" (fun _ => Resp.timeout) 2 ⟨0, 0, []⟩).2.2.getD 1 0
      = (fetchWithRetry 2 true "u" (fun _ => Resp.timeout) 2 ⟨0, 0, []⟩).2.2.getD 0 0
          + delayAfter Resp.timeout 0 := by
  have h := fetch_retry_bound 2 "u" (fun _ => Resp.timeout) 2 ⟨0, 0, []⟩
    (fun _ => rfl) rfl
  exact ⟨h.1, h.2.1, h.2.2.2 0 (by decide)⟩

/-- C7 (counterexample): the minimum interval is not enforced between the
start times of consecutive requests to the same origin. With interval 1, a
first attempt answered 429 with `Retry-After: 0` is followed by a second
request to the same URL at the same instant: the two request starts are
both at time 1, a gap of 0 < 1 (`_rate_limit` runs once before the retry
loop, and retries are spaced only by the retry sleep). -/
theorem politeness_counterexample :
    (fetchWithRetry 1 true "u"
        (fun a => if a == 0 then Resp.status 429 (some 0) else Resp.ok "text/html" [])
        3 ⟨0, 0, []⟩).2.2 = [1, 1] ∧
    ¬((fetchWithRetry 1 true "u"
        (fun a => if a == 0 then Resp.status 429 (some 0) else Resp.ok "text/html" [])
        3 ⟨0, 0, []⟩).2.2.getD 0 0 + 1
      ≤ (fetchWithRetry 1 true "u"
        (fun a => if a == 0 then Resp.status 429 (some 0) else Resp.ok "text/html" [])
        3 ⟨0, 0, []⟩).2.2.getD 1 0) := by
  decide

/-- C7 (amended): the rate limiter does enforce the interval between the
first attempts of consecutive `fetch_with_retry` calls executed
sequentially on the same scraper instance: if both calls make at least one
attempt, the second call's first request starts at least `rl` after the
first call's first request (the spacing state is the per-instance
`last_request_time`, not a per-origin map; retry attempts within a single
call are spaced only by the retry delay, which may be less than `rl`). -/
theorem rate_limit_spaces_consecutive_fetches (rl : Int) (url1 url2 : String)
    (resp1 resp2 : Nat → Resp) (m1 m2 : Nat) (s0 : ScraperState)
    (h1 : s0.failedUrls.contains url1 = false)
    (hm1 : 1 ≤ m1) (hm2 : 1 ≤ m2)
    (h2 : (fetchWithRetry rl true url1 resp1 m1 s0).2.1.failedUrls.contains url2
      = false) :
    (fetchWithRetry rl true url1 resp1 m1 s0).2.2.headD 0 + rl
      ≤ (fetchWithRetry rl true url2 resp2 m2
          (fetchWithRetry rl true url1 resp1 m1 s0).2.1).2.2.headD 0 := by
  obtain ⟨k1, rfl⟩ : ∃ k, m1 = k + 1 := ⟨m1 - 1, by omega⟩
  obtain ⟨k2, rfl⟩ : ∃ k, m2 = k + 1 := ⟨m2 - 1, by omega⟩
  have hu1 := fetchWithRetry_not_failed rl url1 resp1 (k1 + 1) s0 h1
  have hu2 := fetchWithRetry_not_failed rl url2 resp2 (k2 + 1)
    (fetchWithRetry rl true url1 resp1 (k1 + 1) s0).2.1 h2
  rw [hu2, fetchGo_headD]
  have hstart1 : (fetchWithRetry rl true url1 resp1 (k1 + 1) s0).2.2.headD 0
      = (rateLimit rl s0).clock := by
    rw [hu1, fetchGo_headD]
  have hlast : (fetchWithRetry rl true url1 resp1 (k1 + 1) s0).2.1.lastRequestTime
      = (rateLimit rl s0).clock := by
    rw [hu1, fetchGo_lastRequestTime, rateLimit_last_eq_clock]
  rw [hstart1]
  calc (rateLimit rl s0).clock + rl
      = (fetchWithRetry rl true url1 resp1 (k1 + 1) s0).2.1.lastRequestTime + rl := by
        rw [hlast]
    _ ≤ (rateLimit rl (fetchWithRetry rl true url1 resp1 (k1 + 1) s0).2.1).clock :=
        rateLimit_clock_ge rl _

/-- C7 (witness): two sequential single-attempt fetches on one instance
with interval 5 start at times 5 and 10, respecting the interval. -/
theorem rate_limit_spaces_consecutive_fetches_witness :
    (fetchWithRetry 5 true "a" (fun _ => Resp.ok "text/html" []) 1 ⟨0, 0, []⟩).2.2.headD 0
        + 5
      ≤ (fetchWithRetry 5 true "b" (fun _ => Resp.ok "text/html" []) 1
          (fetchWithRetry 5 true "a" (fun _ => Resp.ok "text/html" []) 1
            ⟨0, 0, []⟩).2.1).2.2.headD 0 :=
  rate_limit_spaces_consecutive_fetches 5 "a" "b" _ _ 1 1 ⟨0, 0, []⟩ rfl
    (by decide) (by decide) (by decide)

/-! ### Text-normalization lemmas -/

theorem pySplit_ne_nil (sep : Char) : ∀ t : List Char, pySplit sep t ≠ [] := by
  intro t
  induction t with
  | nil => simp [pySplit]
  | cons c cs ih =>
    rw [pySplit]
    cases h : pySplit sep cs with
    | nil => simp
    | cons l ls => by_cases hc : c = sep <;> simp [hc]

theorem sep_not_mem_pySplit (sep : Char) :
    ∀ (t l : List Char), l ∈ pySplit sep t → sep ∉ l := by
  intro t
  induction t with
  | nil =>
    intro l hl
    simp [pySplit] at hl
    subst hl
    simp
  | cons c cs ih =>
    intro l hl
    rw [pySplit] at hl
    cases h : pySplit sep cs with
    | nil => exact absurd h (pySplit_ne_nil sep cs)
    | cons l0 ls =>
      rw [h] at hl
      dsimp only at hl
      by_cases hc : c = sep
      · rw [if_pos hc] at hl
        rcases List.mem_cons.mp hl with rfl | hm
        · simp
        · exact ih l (by rw [h]; exact hm)
      · rw [if_neg hc] at hl
        rcases List.mem_cons.mp hl with rfl | hm
        · intro hmem
          rcases List.mem_cons.mp hmem with rfl | hm2
          · exact hc rfl
          · exact ih l0 (by rw [h]; exact List.mem_cons_self l0 ls) hm2
        · exact ih l (by rw [h]; exact List.mem_cons_of_mem l0 hm)

theorem pySplit_of_not_mem (sep : Char) :
    ∀ l : List Char, sep ∉ l → pySplit sep l = [l] := by
  intro l
  induction l with
  | nil => intro _; rfl
  | cons c cs ih =>
    intro h
    have hc : ¬c = sep := fun e => h (by rw [e]; exact List.mem_cons_self _ _)
    have hcs : sep ∉ cs := fun hm => h (List.mem_cons_of_mem _ hm)
    rw [pySplit, ih hcs]
    simp [hc]

theorem pySplit_append (sep : Char) :
    ∀ (l rest : List Char), sep ∉ l →
      pySplit sep (l ++ sep :: rest) = l :: pySplit sep rest := by
  intro l
  induction l with
  | nil =>
    intro rest _
    cases h : pySplit sep rest with
    | nil => exact absurd h (pySplit_ne_nil sep rest)
    | cons r rs => simp [pySplit, h]
  | cons c cs ih =>
    intro rest h
    have hc : ¬c = sep := fun e => h (by rw [e]; exact List.mem_cons_self _ _)
    have hcs : sep ∉ cs := fun hm => h (List.mem_cons_of_mem _ hm)
    rw [List.cons_append, pySplit, ih rest hcs]
    simp [hc]

theorem pySplit_joinNL :
    ∀ L : List (List Char), L ≠ [] → (∀ l ∈ L, '\n' ∉ l) →
      pySplit '\n' (joinNL L) = L := by
  intro L
  induction L with
  | nil => intro h _; exact absurd rfl h
  | cons l ls ih =>
    intro _ hnl
    cases ls with
    | nil =>
      rw [joinNL]
      exact pySplit_of_not_mem '\n' l (hnl l (List.mem_cons_self _ _))
    | cons l2 ls2 =>
      have hsplit := ih (List.cons_ne_nil l2 ls2)
        (fun x hx => hnl x (List.mem_cons_of_mem _ hx))
      rw [joinNL, pySplit_append '\n' l _ (hnl l (List.mem_cons_self _ _)), hsplit]
      exact List.cons_ne_nil l2 ls2

theorem dropWhile_head_false (p : Char → Bool) :
    ∀ (l : List Char) (x : Char) (xs : List Char),
      l.dropWhile p = x :: xs → p x = false := by
  intro l
  induction l with
  | nil => intro x xs h; simp at h
  | cons c cs ih =>
    intro x xs h
    rw [List.dropWhile_cons] at h
    by_cases hc : p c = true
    · rw [if_pos hc] at h
      exact ih x xs h
    · rw [if_neg hc] at h
      cases h
      simpa using hc

theorem dropWhile_idem (p : Char → Bool) (l : List Char) :
    (l.dropWhile p).dropWhile p = l.dropWhile p := by
  cases h : l.dropWhile p with
  | nil => rfl
  | cons x xs =>
    rw [List.dropWhile_cons, dropWhile_head_false p l x xs h]
    simp

theorem pyStrip_prefix (l : List Char) :
    pyStrip l <+: l.dropWhile isPySpace := by
  obtain ⟨t, ht⟩ :=
    List.dropWhile_suffix (l := (l.dropWhile isPySpace).reverse) isPySpace
  refine ⟨t.reverse, ?_⟩
  have h2 := congrArg List.reverse ht
  simpa [pyStrip, List.reverse_append] using h2

theorem dropWhile_pyStrip (l : List Char) :
    (pyStrip l).dropWhile isPySpace = pyStrip l := by
  have hpre := pyStrip_prefix l
  cases hs : pyStrip l with
  | nil => rfl
  | cons x xs =>
    rw [hs] at hpre
    obtain ⟨t, ht⟩ := hpre
    have hx : isPySpace x = false :=
      dropWhile_head_false isPySpace l x (xs ++ t) (by rw [← ht]; rfl)
    rw [List.dropWhile_cons, hx]
    simp

theorem pyStrip_idem (l : List Char) : pyStrip (pyStrip l) = pyStrip l := by
  show (((pyStrip l).dropWhile isPySpace).reverse.dropWhile isPySpace).reverse = pyStrip l
  rw [dropWhile_pyStrip]
  show (((((l.dropWhile isPySpace).reverse.dropWhile isPySpace).reverse).reverse).dropWhile
      isPySpace).reverse = pyStrip l
  rw [List.reverse_reverse, dropWhile_idem]
  rfl

theorem mem_of_mem_pyStrip {l : List Char} {c : Char} (h : c ∈ pyStrip l) : c ∈ l := by
  unfold pyStrip at h
  rw [List.mem_reverse] at h
  have h2 := List.dropWhile_subset isPySpace h
  rw [List.mem_reverse] at h2
  exact List.dropWhile_subset isPySpace h2

/-- C9: text normalization is idempotent — normalizing an already
normalized text changes nothing, because the normalized text has no blank
lines and no leading or trailing whitespace on any line. -/
theorem normalize_idempotent (t : List Char) :
    normalizeText (normalizeText t) = normalizeText t := by
  rcases hcase : ((pySplit '\n' t).map pyStrip).filter (fun l => !l.isEmpty)
    with _ | ⟨l0, ls⟩
  · show normalizeText
        (joinNL (((pySplit '\n' t).map pyStrip).filter (fun l => !l.isEmpty)))
      = joinNL (((pySplit '\n' t).map pyStrip).filter (fun l => !l.isEmpty))
    rw [hcase]
    rfl
  · show normalizeText
        (joinNL (((pySplit '\n' t).map pyStrip).filter (fun l => !l.isEmpty)))
      = joinNL (((pySplit '\n' t).map pyStrip).filter (fun l => !l.isEmpty))
    rw [hcase]
    have hL : ∀ l ∈ l0 :: ls, l ∈ ((pySplit '\n' t).map pyStrip) ∧ (!l.isEmpty) = true := by
      intro l hl
      rw [← hcase] at hl
      exact ⟨(List.mem_filter.mp hl).1, (List.mem_filter.mp hl).2⟩
    have hnl : ∀ l ∈ l0 :: ls, '\n' ∉ l := by
      intro l hl hmem
      obtain ⟨s, hs, rfl⟩ := List.mem_map.mp (hL l hl).1
      exact sep_not_mem_pySplit '\n' t s hs (mem_of_mem_pyStrip hmem)
    have hstrip : ∀ l ∈ l0 :: ls, pyStrip l = l := by
      intro l hl
      obtain ⟨s, hs, rfl⟩ := List.mem_map.mp (hL l hl).1
      exact pyStrip_idem s
    have hmap : (l0 :: ls).map pyStrip = l0 :: ls := by
      simpa using List.map_congr_left hstrip
    rw [normalizeText, pySplit_joinNL (l0 :: ls) (List.cons_ne_nil _ _) hnl, hmap,
      List.filter_eq_self.mpr (fun l hl => (hL l hl).2)]

/-- The SHA-256 model matches the FIPS 180-4 test vector for `"abc"`. -/
example : sha256Hex (utf8Encode "abc".toList)
    = "ba7816bf8f01cfea414140de5dae2223b00361a396177a9cb410ff61f20015ad".toList := by
  decide

/-- C1 (counterexample): the deduplication hash used by the ingestion
pipeline (`DocumentProcessor._process_single_document`, line 91) is the
SHA-256 of the raw downloaded bytes, not of the normalized extracted text:
for two raw documents with identical extracted text (extraction is the
out-of-scope collaborator; here it returns the same text for both byte
payloads) but different bytes, the pipeline's content hashes differ. -/
theorem ingestion_hash_not_content_determined :
    normalizeText ((fun _ : List Nat => "Judgment delivered.".toList) [0x25])
      = normalizeText ((fun _ : List Nat => "Judgment delivered.".toList) [0x25, 0x20]) ∧
    processorContentHash [0x25] ≠ processorContentHash [0x25, 0x20] :=
  ⟨rfl, by decide⟩

/-- C1 (amended): the hash computed by
`DocumentParser.extract_text_from_pdf` is a deterministic pure function of
the normalized text — for any two documents whose extracted texts normalize
to the same string, the parser's content hashes are identical (the
`DocumentProcessor` pipeline, however, deduplicates by the raw-byte hash,
see the counterexample). -/
theorem parser_hash_deterministic
    (extract : List Nat → Except String (List Char)) (b1 b2 : List Nat)
    (t1 t2 : List Char)
    (h1 : extract b1 = .ok t1) (h2 : extract b2 = .ok t2)
    (hn : normalizeText t1 = normalizeText t2) :
    extractTextFromPdf extract b1 = .ok (normalizeText t1, parserContentHash t1) ∧
    extractTextFromPdf extract b2 = .ok (normalizeText t2, parserContentHash t2) ∧
    parserContentHash t1 = parserContentHash t2 := by
  refine ⟨?_, ?_, ?_⟩
  · rw [extractTextFromPdf, h1]
  · rw [extractTextFromPdf, h2]
  · rw [parserContentHash, parserContentHash, hn]

/-- C1 (witness): two byte payloads extracting to `" a "` and `"a"`, which
normalize to the same string, get the same parser content hash. -/
theorem parser_hash_deterministic_witness :
    normalizeText " a ".toList = normalizeText "a".toList ∧
    parserContentHash " a ".toList = parserContentHash "a".toList := by
  have h := parser_hash_deterministic
    (fun b => if b = [0] then .ok " a ".toList else .ok "a".toList)
    [0] [1] " a ".toList "a".toList rfl rfl (by decide)
  exact ⟨by decide, h.2.2⟩

end Company
